import Mathlib

set_option maxHeartbeats 1000000

namespace Make

/-- Node identifiers: `GNode *` pointers of make.c are modelled as natural-number
handles into the externally built target graph. -/
abbrev Node := Nat

/-- Built status of a node, the values of `built_status` that the scheduler of
make.c reads and writes (spec section 3: Unexamined, UpToDate, Rebuilt, Error). -/
inductive BuiltStatus where
  | UNKNOWN
  | UPTODATE
  | REBUILT
  | ERROR
  deriving DecidableEq, Repr

/-- Static part of the target graph: relationship lists and the per-node flags
that make.c only reads (`parents`, `successors`, `predecessors`, `must_make`,
and the `OP_USE` / `OP_EXEC` bits of `type`). -/
structure Graph where
  parents : Node → List Node
  successors : Node → List Node
  predecessors : Node → List Node
  must_make : Node → Bool
  opUse : Node → Bool
  opExec : Node → Bool

/-- Modelled from the spec: the external collaborators absent from src — the
timestamp probe `Dir_MTime` of dir.c and `is_out_of_date` of timestamp.h
(spec section 6: `probe_mtime(node) -> Timestamp`, `is_out_of_date(probe_result)
-> bool`), the dry-run switch `noExecute`, and the wall clock read by
`clock_gettime(CLOCK_REALTIME)`. Timestamps are modelled as integers. -/
structure Oracle where
  noExecute : Bool
  dirMTime : Node → Int
  outOfDate : Int → Bool
  now : Int

/-- Mutable scheduling state: the per-node fields make.c mutates
(`built_status`, `children_left`, `child_rebuilt`, `mtime`, `watched`, and the
parent timestamp-comparison state fed by `Make_TimeStamp`), the two global
growable arrays `heldBack` and `to_build`, and the stream of structural error
reports emitted by `Error`, each carrying the two node handles it names. -/
structure MState where
  status : Node → BuiltStatus
  children_left : Node → Int
  child_rebuilt : Node → Bool
  mtime : Node → Int
  cmtime : Node → Int
  watched : Node → Option Node
  heldBack : List Node
  to_build : List Node
  errors : List (Node × Node)

/-- Pointwise update of a per-node field. -/
def upd {α : Type} (f : Node → α) (n : Node) (v : α) : Node → α :=
  fun m => if m = n then v else f m

/-- Modelled from the spec: the growable-array push of garray.h is not under
src; spec section 4.1 specifies `push(node)` — adds the node if not already
present. -/
def Array_Push (q : List Node) (n : Node) : List Node :=
  if n ∈ q then q else q ++ [n]

/-- Modelled from the spec: `push_if_new` of spec section 4.1, the same as
push but explicitly dedupping. -/
def Array_PushNew (q : List Node) (n : Node) : List Node :=
  Array_Push q n

/-- Modelled from the spec: `Make_TimeStamp` of engine.c is not under src; spec
section 4.3 folds the child's modification time into the parent's comparison
state, conceptually tracking the maximum child timestamp seen so far. -/
def Make_TimeStamp (pc : Int) (cm : Int) : Int :=
  max pc cm

/-- Loop body of `requeue` (make.c lines 190-201): scan the remaining held-back
entries in order; an entry watching `gn` has its `built_status` reset to
`UNKNOWN` and is pushed on `to_build`, any other entry is kept (the in-place
compaction with index `j` is modelled by rebuilding `heldBack` in order). -/
def requeueAux (gn : Node) : List Node → MState → MState
  | [], s => s
  | x :: rest, s =>
    if s.watched x = some gn then
      requeueAux gn rest
        { s with status := upd s.status x BuiltStatus.UNKNOWN,
                 to_build := Array_Push s.to_build x }
    else
      requeueAux gn rest { s with heldBack := s.heldBack ++ [x] }

/-- `requeue` from make.c lines 184-203: release every held-back entry whose
`watched` field equals the finished node `gn`. -/
def requeue (gn : Node) (s : MState) : MState :=
  requeueAux gn s.heldBack { s with heldBack := [] }

/-- Loop body of `requeue_successors` (make.c lines 175-181). -/
def requeue_successorsAux (g : Graph) : List Node → MState → MState
  | [], s => s
  | succ :: rest, s =>
    if g.must_make succ ∧ s.children_left succ = 0 ∧
        s.status succ = BuiltStatus.UNKNOWN then
      requeue_successorsAux g rest
        { s with to_build := Array_PushNew s.to_build succ }
    else
      requeue_successorsAux g rest s

/-- `requeue_successors` from make.c lines 167-182: re-offer any successor of
`gn` that is marked for making, has `children_left == 0` and has not been
examined yet. -/
def requeue_successors (g : Graph) (gn : Node) (s : MState) : MState :=
  requeue_successorsAux g (g.successors gn) s

/-- One iteration of the parents loop of `Make_Update` (make.c lines 258-285):
decrement `children_left`, then, when the parent is marked for making, fold
rebuild/timestamp information unless the child is `OP_EXEC` or `OP_USE`, queue
the parent when its count reaches zero, and report a cycle when it goes
negative. -/
def updateParent (g : Graph) (cgn : Node) (s : MState) (pgn : Node) : MState :=
  let s1 : MState :=
    { s with children_left := upd s.children_left pgn (s.children_left pgn - 1) }
  if g.must_make pgn then
    let s2 : MState :=
      if !(g.opExec cgn || g.opUse cgn) then
        let s3 : MState :=
          if s1.status cgn = BuiltStatus.REBUILT then
            { s1 with child_rebuilt := upd s1.child_rebuilt pgn true }
          else s1
        { s3 with
          cmtime := upd s3.cmtime pgn (Make_TimeStamp (s3.cmtime pgn) (s3.mtime cgn)) }
      else s1
    if s2.children_left pgn = 0 then
      { s2 with to_build := Array_Push s2.to_build pgn }
    else if s2.children_left pgn < 0 then
      { s2 with errors := s2.errors ++ [(cgn, pgn)] }
    else s2
  else s1

/-- The parents loop of `Make_Update`, iterated over `cgn.parents` in order. -/
def updateParents (g : Graph) (cgn : Node) : List Node → MState → MState
  | [], s => s
  | p :: rest, s => updateParents g cgn rest (updateParent g cgn s p)

/-- Step 1 of `Make_Update` (make.c lines 234-254): when the child was not
found up to date and either execution is suppressed or the post-build probe
still reports it out of date, set its modification time to now. -/
def Make_Update_time (o : Oracle) (cgn : Node) (s : MState) : MState :=
  if s.status cgn ≠ BuiltStatus.UPTODATE then
    if o.noExecute || o.outOfDate (o.dirMTime cgn) then
      { s with mtime := upd s.mtime cgn o.now }
    else s
  else s

/-- `Make_Update` from make.c lines 223-289: timestamp finalization, hold-back
release, parent propagation, then successor re-examination. -/
def Make_Update (g : Graph) (o : Oracle) (cgn : Node) (s : MState) : MState :=
  requeue_successors g cgn
    (updateParents g cgn (g.parents cgn) (requeue cgn (Make_Update_time o cgn s)))

/-- Loop of `has_predecessor_left_to_build` (make.c lines 154-163). -/
def hasPredAux (g : Graph) (s : MState) : List Node → Bool
  | [] => false
  | p :: rest =>
    if g.must_make p ∧ s.status p = BuiltStatus.UNKNOWN then true
    else hasPredAux g s rest

/-- `has_predecessor_left_to_build` from make.c lines 145-165. -/
def has_predecessor_left_to_build (g : Graph) (s : MState) (gn : Node) : Bool :=
  if (g.predecessors gn).isEmpty then false
  else hasPredAux g s (g.predecessors gn)

/-- The per-node status line that `MakePrintStatus` may print. -/
inductive StatusLine where
  | upToDate (n : Node)
  | notRemade (n : Node)
  deriving DecidableEq, Repr

/-- `MakePrintStatus` from make.c lines 291-300, with the printed line
reified as an optional `StatusLine` value. -/
def MakePrintStatus (s : MState) (gn : Node) : Option StatusLine :=
  if s.status gn = BuiltStatus.UPTODATE then some (StatusLine.upToDate gn)
  else if s.children_left gn ≠ 0 then some (StatusLine.notRemade gn)
  else none

/-- Swap of two array cells, the exchange of `g->a[i-1]` and `g->a[v]` in
`randomize_garray`; out-of-range indices leave the list unchanged. -/
def swapIdx (l : List Node) (i j : Nat) : List Node :=
  match l.get? i, l.get? j with
  | some x, some y => (l.set i y).set j x
  | _, _ => l

/-- The countdown loop of `randomize_garray` (make.c lines 133-142): at
counter value `i+1` (the C loop's `i`), draw `v < i+1`, skip when `v = i`
(the C `v == i-1` case), otherwise swap cells `i` and `v`. -/
def randomizeAux (d : Nat → Nat) : Nat → List Node → List Node
  | 0, l => l
  | i + 1, l =>
    if d (i + 1) % (i + 1) = i then randomizeAux d i l
    else randomizeAux d i (swapIdx l i (d (i + 1) % (i + 1)))

/-- `randomize_garray` from make.c lines 126-143; `arc4random_uniform(i)` is
external and modelled from the spec as an arbitrary draw sequence reduced
modulo its bound `i`. -/
def randomize_garray (d : Nat → Nat) (l : List Node) : List Node :=
  randomizeAux d l.length l

/-- Modelled from the spec: the driver operations absent from src that may
interleave with `Make_Update` — `defer(node, watched)` of spec section 4.2,
which inserts a not-yet-examined node into the hold-back set with its
`equivalence_watch` set, and the job engine's completion that records a
finished (hence not held-back) node's outcome before the completion callback
(spec sections 5 and 6). -/
inductive Step (g : Graph) (o : Oracle) : MState → MState → Prop where
  | defer (n w : Node) (s : MState) :
      s.status n = BuiltStatus.UNKNOWN → n ∉ s.heldBack →
      Step g o s { s with watched := upd s.watched n (some w),
                          heldBack := s.heldBack ++ [n] }
  | finish (n : Node) (st : BuiltStatus) (s : MState) :
      n ∉ s.heldBack →
      Step g o s { s with status := upd s.status n st }
  | update (cgn : Node) (s : MState) :
      Step g o s (Make_Update g o cgn s)

/-- States of the scheduler reachable from a run start (empty hold-back set)
by driver steps. -/
inductive Reachable (g : Graph) (o : Oracle) : MState → Prop where
  | init (s : MState) : s.heldBack = [] → Reachable g o s
  | step (s t : MState) : Reachable g o s → Step g o s t → Reachable g o t

theorem mem_Array_Push (q : List Node) (n m : Node) :
    m ∈ Array_Push q n ↔ m ∈ q ∨ m = n := by
  unfold Array_Push
  split
  · constructor
    · exact fun h => Or.inl h
    · rintro (h | rfl) <;> assumption
  · simp

theorem Array_Push_nodup (q : List Node) (n : Node) (h : q.Nodup) :
    (Array_Push q n).Nodup := by
  unfold Array_Push
  split
  · exact h
  · next hn => simp [List.nodup_append, h, hn]

theorem Array_Push_of_not_mem (q : List Node) (n : Node) (h : n ∉ q) :
    Array_Push q n = q ++ [n] := by
  unfold Array_Push
  simp [h]

theorem requeueAux_children_left (gn : Node) (pending : List Node) :
    ∀ s : MState, (requeueAux gn pending s).children_left = s.children_left := by
  induction pending with
  | nil => intro s; rfl
  | cons x rest ih =>
    intro s
    unfold requeueAux
    split <;> exact ih _

theorem requeueAux_child_rebuilt (gn : Node) (pending : List Node) :
    ∀ s : MState, (requeueAux gn pending s).child_rebuilt = s.child_rebuilt := by
  induction pending with
  | nil => intro s; rfl
  | cons x rest ih =>
    intro s
    unfold requeueAux
    split <;> exact ih _

theorem requeueAux_cmtime (gn : Node) (pending : List Node) :
    ∀ s : MState, (requeueAux gn pending s).cmtime = s.cmtime := by
  induction pending with
  | nil => intro s; rfl
  | cons x rest ih =>
    intro s
    unfold requeueAux
    split <;> exact ih _

theorem requeueAux_mtime (gn : Node) (pending : List Node) :
    ∀ s : MState, (requeueAux gn pending s).mtime = s.mtime := by
  induction pending with
  | nil => intro s; rfl
  | cons x rest ih =>
    intro s
    unfold requeueAux
    split <;> exact ih _

theorem requeueAux_watched (gn : Node) (pending : List Node) :
    ∀ s : MState, (requeueAux gn pending s).watched = s.watched := by
  induction pending with
  | nil => intro s; rfl
  | cons x rest ih =>
    intro s
    unfold requeueAux
    split <;> exact ih _

theorem requeueAux_errors (gn : Node) (pending : List Node) :
    ∀ s : MState, (requeueAux gn pending s).errors = s.errors := by
  induction pending with
  | nil => intro s; rfl
  | cons x rest ih =>
    intro s
    unfold requeueAux
    split <;> exact ih _

theorem requeueAux_status (gn : Node) (pending : List Node) :
    ∀ (s : MState) (m : Node), (requeueAux gn pending s).status m =
      if m ∈ pending ∧ s.watched m = some gn then BuiltStatus.UNKNOWN
      else s.status m := by
  induction pending with
  | nil => intro s m; simp [requeueAux]
  | cons x rest ih =>
    intro s m
    unfold requeueAux
    by_cases hx : s.watched x = some gn
    · rw [if_pos hx, ih]
      by_cases hm : m = x
      · subst hm
        simp [upd, hx]
      · simp [upd, hm, List.mem_cons]
    · rw [if_neg hx, ih]
      by_cases hm : m = x
      · subst hm
        simp [hx]
      · simp [hm, List.mem_cons]

theorem requeueAux_heldBack (gn : Node) (pending : List Node) :
    ∀ s : MState, (requeueAux gn pending s).heldBack =
      s.heldBack ++ pending.filter (fun x => !decide (s.watched x = some gn)) := by
  induction pending with
  | nil => intro s; simp [requeueAux]
  | cons x rest ih =>
    intro s
    unfold requeueAux
    by_cases hx : s.watched x = some gn
    · rw [if_pos hx, ih]
      simp [List.filter_cons, hx]
    · rw [if_neg hx, ih]
      simp [List.filter_cons, hx]

theorem requeueAux_to_build_mem (gn : Node) (pending : List Node) :
    ∀ (s : MState) (m : Node), (m ∈ (requeueAux gn pending s).to_build ↔
      m ∈ s.to_build ∨ (m ∈ pending ∧ s.watched m = some gn)) := by
  induction pending with
  | nil => intro s m; simp [requeueAux]
  | cons x rest ih =>
    intro s m
    unfold requeueAux
    by_cases hx : s.watched x = some gn
    · rw [if_pos hx, ih]
      by_cases hm : m = x
      · subst hm
        simp [mem_Array_Push, hx]
      · simp [mem_Array_Push, hm, List.mem_cons]
    · rw [if_neg hx, ih]
      by_cases hm : m = x
      · subst hm
        simp [hx]
      · simp [hm, List.mem_cons]

theorem requeueAux_to_build_eq (gn : Node) (pending : List Node) :
    ∀ s : MState, pending.Nodup →
      (∀ x ∈ pending, s.watched x = some gn → x ∉ s.to_build) →
      (requeueAux gn pending s).to_build =
        s.to_build ++ pending.filter (fun x => decide (s.watched x = some gn)) := by
  induction pending with
  | nil => intro s _ _; simp [requeueAux]
  | cons x rest ih =>
    intro s hnd hdisj
    unfold requeueAux
    by_cases hx : s.watched x = some gn
    · rw [if_pos hx]
      have hxq : x ∉ s.to_build := hdisj x (List.mem_cons_self x rest) hx
      rw [ih]
      · simp [Array_Push_of_not_mem _ _ hxq, List.filter_cons, hx]
      · exact hnd.of_cons
      · intro y hy hwy
        simp only [Array_Push_of_not_mem _ _ hxq, List.mem_append, List.mem_singleton]
        rintro (h | rfl)
        · exact hdisj y (List.mem_cons_of_mem x hy) hwy h
        · exact (List.nodup_cons.mp hnd).1 hy
    · rw [if_neg hx]
      rw [ih]
      · simp [List.filter_cons, hx]
      · exact hnd.of_cons
      · intro y hy hwy
        exact hdisj y (List.mem_cons_of_mem x hy) hwy

theorem requeueAux_to_build_nodup (gn : Node) (pending : List Node) :
    ∀ s : MState, s.to_build.Nodup → (requeueAux gn pending s).to_build.Nodup := by
  induction pending with
  | nil => intro s h; exact h
  | cons x rest ih =>
    intro s h
    unfold requeueAux
    split
    · exact ih _ (Array_Push_nodup _ _ h)
    · exact ih _ h

theorem requeue_heldBack (gn : Node) (s : MState) :
    (requeue gn s).heldBack =
      s.heldBack.filter (fun x => !decide (s.watched x = some gn)) := by
  unfold requeue
  rw [requeueAux_heldBack]
  simp

theorem requeue_status (gn : Node) (s : MState) (m : Node) :
    (requeue gn s).status m =
      if m ∈ s.heldBack ∧ s.watched m = some gn then BuiltStatus.UNKNOWN
      else s.status m := by
  unfold requeue
  rw [requeueAux_status]

theorem requeue_to_build_mem (gn : Node) (s : MState) (m : Node) :
    m ∈ (requeue gn s).to_build ↔
      m ∈ s.to_build ∨ (m ∈ s.heldBack ∧ s.watched m = some gn) := by
  unfold requeue
  rw [requeueAux_to_build_mem]

theorem requeue_to_build_eq (gn : Node) (s : MState) (hnd : s.heldBack.Nodup)
    (hdisj : ∀ x ∈ s.heldBack, s.watched x = some gn → x ∉ s.to_build) :
    (requeue gn s).to_build =
      s.to_build ++ s.heldBack.filter (fun x => decide (s.watched x = some gn)) := by
  unfold requeue
  rw [requeueAux_to_build_eq]
  · exact hnd
  · exact hdisj

theorem requeue_children_left (gn : Node) (s : MState) :
    (requeue gn s).children_left = s.children_left := by
  unfold requeue
  rw [requeueAux_children_left]

theorem requeue_child_rebuilt (gn : Node) (s : MState) :
    (requeue gn s).child_rebuilt = s.child_rebuilt := by
  unfold requeue
  rw [requeueAux_child_rebuilt]

theorem requeue_cmtime (gn : Node) (s : MState) :
    (requeue gn s).cmtime = s.cmtime := by
  unfold requeue
  rw [requeueAux_cmtime]

theorem requeue_mtime (gn : Node) (s : MState) :
    (requeue gn s).mtime = s.mtime := by
  unfold requeue
  rw [requeueAux_mtime]

theorem requeue_watched (gn : Node) (s : MState) :
    (requeue gn s).watched = s.watched := by
  unfold requeue
  rw [requeueAux_watched]

theorem requeue_errors (gn : Node) (s : MState) :
    (requeue gn s).errors = s.errors := by
  unfold requeue
  rw [requeueAux_errors]

theorem requeue_to_build_nodup (gn : Node) (s : MState)
    (h : s.to_build.Nodup) : (requeue gn s).to_build.Nodup := by
  unfold requeue
  exact requeueAux_to_build_nodup _ _ _ h

theorem rsAux_status (g : Graph) (succs : List Node) :
    ∀ s : MState, (requeue_successorsAux g succs s).status = s.status := by
  induction succs with
  | nil => intro s; rfl
  | cons x rest ih =>
    intro s
    unfold requeue_successorsAux
    split <;> exact ih _

theorem rsAux_children_left (g : Graph) (succs : List Node) :
    ∀ s : MState, (requeue_successorsAux g succs s).children_left = s.children_left := by
  induction succs with
  | nil => intro s; rfl
  | cons x rest ih =>
    intro s
    unfold requeue_successorsAux
    split <;> exact ih _

theorem rsAux_child_rebuilt (g : Graph) (succs : List Node) :
    ∀ s : MState, (requeue_successorsAux g succs s).child_rebuilt = s.child_rebuilt := by
  induction succs with
  | nil => intro s; rfl
  | cons x rest ih =>
    intro s
    unfold requeue_successorsAux
    split <;> exact ih _

theorem rsAux_mtime (g : Graph) (succs : List Node) :
    ∀ s : MState, (requeue_successorsAux g succs s).mtime = s.mtime := by
  induction succs with
  | nil => intro s; rfl
  | cons x rest ih =>
    intro s
    unfold requeue_successorsAux
    split <;> exact ih _

theorem rsAux_cmtime (g : Graph) (succs : List Node) :
    ∀ s : MState, (requeue_successorsAux g succs s).cmtime = s.cmtime := by
  induction succs with
  | nil => intro s; rfl
  | cons x rest ih =>
    intro s
    unfold requeue_successorsAux
    split <;> exact ih _

theorem rsAux_watched (g : Graph) (succs : List Node) :
    ∀ s : MState, (requeue_successorsAux g succs s).watched = s.watched := by
  induction succs with
  | nil => intro s; rfl
  | cons x rest ih =>
    intro s
    unfold requeue_successorsAux
    split <;> exact ih _

theorem rsAux_heldBack (g : Graph) (succs : List Node) :
    ∀ s : MState, (requeue_successorsAux g succs s).heldBack = s.heldBack := by
  induction succs with
  | nil => intro s; rfl
  | cons x rest ih =>
    intro s
    unfold requeue_successorsAux
    split <;> exact ih _

theorem rsAux_errors (g : Graph) (succs : List Node) :
    ∀ s : MState, (requeue_successorsAux g succs s).errors = s.errors := by
  induction succs with
  | nil => intro s; rfl
  | cons x rest ih =>
    intro s
    unfold requeue_successorsAux
    split <;> exact ih _

theorem rsAux_to_build_mem (g : Graph) (succs : List Node) :
    ∀ (s : MState) (m : Node), (m ∈ (requeue_successorsAux g succs s).to_build ↔
      m ∈ s.to_build ∨ (m ∈ succs ∧ g.must_make m = true ∧
        s.children_left m = 0 ∧ s.status m = BuiltStatus.UNKNOWN)) := by
  induction succs with
  | nil => intro s m; simp [requeue_successorsAux]
  | cons x rest ih =>
    intro s m
    unfold requeue_successorsAux
    by_cases hx : g.must_make x ∧ s.children_left x = 0 ∧ s.status x = BuiltStatus.UNKNOWN
    · rw [if_pos hx, ih]
      unfold Array_PushNew
      by_cases hm : m = x
      · subst hm
        simp [mem_Array_Push, hx]
      · simp [mem_Array_Push, hm, List.mem_cons]
    · rw [if_neg hx, ih]
      by_cases hm : m = x
      · subst hm
        simp only [List.mem_cons, true_or, true_and]
        tauto
      · simp [hm, List.mem_cons]

theorem rsAux_to_build_nodup (g : Graph) (succs : List Node) :
    ∀ s : MState, s.to_build.Nodup → (requeue_successorsAux g succs s).to_build.Nodup := by
  induction succs with
  | nil => intro s h; exact h
  | cons x rest ih =>
    intro s h
    unfold requeue_successorsAux
    split
    · exact ih _ (Array_Push_nodup _ _ h)
    · exact ih _ h

theorem updateParent_status (g : Graph) (cgn : Node) (s : MState) (p : Node) :
    (updateParent g cgn s p).status = s.status := by
  simp only [updateParent]
  split_ifs <;> rfl

theorem updateParent_mtime (g : Graph) (cgn : Node) (s : MState) (p : Node) :
    (updateParent g cgn s p).mtime = s.mtime := by
  simp only [updateParent]
  split_ifs <;> rfl

theorem updateParent_watched (g : Graph) (cgn : Node) (s : MState) (p : Node) :
    (updateParent g cgn s p).watched = s.watched := by
  simp only [updateParent]
  split_ifs <;> rfl

theorem updateParent_heldBack (g : Graph) (cgn : Node) (s : MState) (p : Node) :
    (updateParent g cgn s p).heldBack = s.heldBack := by
  simp only [updateParent]
  split_ifs <;> rfl

theorem updateParent_children_left (g : Graph) (cgn : Node) (s : MState) (p : Node) :
    (updateParent g cgn s p).children_left =
      upd s.children_left p (s.children_left p - 1) := by
  simp only [updateParent]
  split_ifs <;> rfl

theorem updateParent_child_rebuilt (g : Graph) (cgn : Node) (s : MState) (p : Node) :
    (updateParent g cgn s p).child_rebuilt =
      if g.must_make p = true ∧ (g.opExec cgn || g.opUse cgn) = false ∧
          s.status cgn = BuiltStatus.REBUILT
      then upd s.child_rebuilt p true else s.child_rebuilt := by
  simp only [updateParent]
  split_ifs <;> simp_all

theorem updateParent_cmtime (g : Graph) (cgn : Node) (s : MState) (p : Node) :
    (updateParent g cgn s p).cmtime =
      if g.must_make p = true ∧ (g.opExec cgn || g.opUse cgn) = false
      then upd s.cmtime p (Make_TimeStamp (s.cmtime p) (s.mtime cgn))
      else s.cmtime := by
  simp only [updateParent]
  split_ifs <;> simp_all

theorem updateParent_to_build (g : Graph) (cgn : Node) (s : MState) (p : Node) :
    (updateParent g cgn s p).to_build =
      if g.must_make p = true ∧ s.children_left p - 1 = 0
      then Array_Push s.to_build p else s.to_build := by
  simp only [updateParent, upd]
  split_ifs <;> simp_all [upd]

theorem updateParent_errors (g : Graph) (cgn : Node) (s : MState) (p : Node) :
    (updateParent g cgn s p).errors =
      if g.must_make p = true ∧ s.children_left p - 1 < 0
      then s.errors ++ [(cgn, p)] else s.errors := by
  simp only [updateParent, upd]
  split_ifs <;> simp_all [upd]

theorem Make_TimeStamp_idem (a b : Int) :
    Make_TimeStamp (Make_TimeStamp a b) b = Make_TimeStamp a b := by
  simp [Make_TimeStamp, max_assoc]

theorem updateParents_status (g : Graph) (cgn : Node) (ps : List Node) :
    ∀ s : MState, (updateParents g cgn ps s).status = s.status := by
  induction ps with
  | nil => intro s; rfl
  | cons p rest ih =>
    intro s
    unfold updateParents
    rw [ih, updateParent_status]

theorem updateParents_mtime (g : Graph) (cgn : Node) (ps : List Node) :
    ∀ s : MState, (updateParents g cgn ps s).mtime = s.mtime := by
  induction ps with
  | nil => intro s; rfl
  | cons p rest ih =>
    intro s
    unfold updateParents
    rw [ih, updateParent_mtime]

theorem updateParents_watched (g : Graph) (cgn : Node) (ps : List Node) :
    ∀ s : MState, (updateParents g cgn ps s).watched = s.watched := by
  induction ps with
  | nil => intro s; rfl
  | cons p rest ih =>
    intro s
    unfold updateParents
    rw [ih, updateParent_watched]

theorem updateParents_heldBack (g : Graph) (cgn : Node) (ps : List Node) :
    ∀ s : MState, (updateParents g cgn ps s).heldBack = s.heldBack := by
  induction ps with
  | nil => intro s; rfl
  | cons p rest ih =>
    intro s
    unfold updateParents
    rw [ih, updateParent_heldBack]

theorem updateParents_children_left (g : Graph) (cgn : Node) (ps : List Node) :
    ∀ (s : MState) (m : Node), (updateParents g cgn ps s).children_left m =
      s.children_left m - (ps.count m : Int) := by
  induction ps with
  | nil => intro s m; simp [updateParents]
  | cons p rest ih =>
    intro s m
    unfold updateParents
    rw [ih, updateParent_children_left]
    by_cases hm : m = p
    · subst hm
      simp [upd, List.count_cons]
      omega
    · simp [upd, hm, List.count_cons, Ne.symm hm]

theorem updateParents_child_rebuilt (g : Graph) (cgn : Node) (ps : List Node) :
    ∀ (s : MState) (m : Node), (updateParents g cgn ps s).child_rebuilt m =
      if m ∈ ps ∧ g.must_make m = true ∧ (g.opExec cgn || g.opUse cgn) = false ∧
          s.status cgn = BuiltStatus.REBUILT
      then true else s.child_rebuilt m := by
  induction ps with
  | nil => intro s m; simp [updateParents]
  | cons p rest ih =>
    intro s m
    unfold updateParents
    rw [ih, updateParent_child_rebuilt, updateParent_status]
    by_cases hm : m = p
    · subst hm
      by_cases h1 : g.must_make m = true
      · by_cases h2 : (g.opExec cgn || g.opUse cgn) = false
        · by_cases h3 : s.status cgn = BuiltStatus.REBUILT
          · simp [h1, h2, h3, upd, ite_apply]
          · simp [h1, h2, h3, upd, ite_apply]
        · simp [h1, h2, ite_apply]
      · simp [h1, ite_apply]
    · by_cases h0 : m ∈ rest
      · simp [upd, hm, h0, List.mem_cons, ite_apply]
      · simp [upd, hm, h0, List.mem_cons, ite_apply]

theorem updateParents_cmtime (g : Graph) (cgn : Node) (ps : List Node) :
    ∀ (s : MState) (m : Node), (updateParents g cgn ps s).cmtime m =
      if m ∈ ps ∧ g.must_make m = true ∧ (g.opExec cgn || g.opUse cgn) = false
      then Make_TimeStamp (s.cmtime m) (s.mtime cgn) else s.cmtime m := by
  induction ps with
  | nil => intro s m; simp [updateParents]
  | cons p rest ih =>
    intro s m
    unfold updateParents
    rw [ih, updateParent_cmtime, updateParent_mtime]
    by_cases hm : m = p
    · subst hm
      by_cases h1 : g.must_make m = true
      · by_cases h2 : (g.opExec cgn || g.opUse cgn) = false
        · by_cases h0 : m ∈ rest
          · simp [h1, h2, h0, upd, ite_apply, Make_TimeStamp_idem]
          · simp [h1, h2, h0, upd, ite_apply]
        · simp [h1, h2, ite_apply]
      · simp [h1, ite_apply]
    · by_cases h0 : m ∈ rest
      · simp [upd, hm, h0, List.mem_cons, ite_apply]
      · simp [upd, hm, h0, List.mem_cons, ite_apply]

theorem updateParents_to_build_mono (g : Graph) (cgn : Node) (ps : List Node) :
    ∀ (s : MState) (m : Node), m ∈ s.to_build →
      m ∈ (updateParents g cgn ps s).to_build := by
  induction ps with
  | nil => intro s m h; exact h
  | cons p rest ih =>
    intro s m h
    unfold updateParents
    apply ih
    rw [updateParent_to_build]
    split
    · rw [mem_Array_Push]
      exact Or.inl h
    · exact h

theorem updateParents_to_build_new (g : Graph) (cgn : Node) (ps : List Node) :
    ∀ (s : MState) (m : Node), m ∈ (updateParents g cgn ps s).to_build →
      m ∈ s.to_build ∨ (m ∈ ps ∧ g.must_make m = true) := by
  induction ps with
  | nil => intro s m h; exact Or.inl h
  | cons p rest ih =>
    intro s m h
    rcases ih _ m h with h1 | h1
    · rw [updateParent_to_build] at h1
      by_cases hc : g.must_make p = true ∧ s.children_left p - 1 = 0
      · rw [if_pos hc, mem_Array_Push] at h1
        rcases h1 with h1 | rfl
        · exact Or.inl h1
        · exact Or.inr ⟨List.mem_cons_self _ _, hc.1⟩
      · rw [if_neg hc] at h1
        exact Or.inl h1
    · exact Or.inr ⟨List.mem_cons_of_mem _ h1.1, h1.2⟩

theorem updateParents_to_build_nodup (g : Graph) (cgn : Node) (ps : List Node) :
    ∀ s : MState, s.to_build.Nodup → (updateParents g cgn ps s).to_build.Nodup := by
  induction ps with
  | nil => intro s h; exact h
  | cons p rest ih =>
    intro s h
    apply ih
    rw [updateParent_to_build]
    split
    · exact Array_Push_nodup _ _ h
    · exact h

theorem updateParents_not_pushed (g : Graph) (cgn : Node) (ps : List Node) :
    ∀ (s : MState) (m : Node), s.children_left m - 1 < 0 →
      m ∈ (updateParents g cgn ps s).to_build → m ∈ s.to_build := by
  induction ps with
  | nil => intro s m _ h; exact h
  | cons p rest ih =>
    intro s m hneg h
    unfold updateParents at h
    have hstep : (updateParent g cgn s p).children_left m - 1 < 0 := by
      rw [updateParent_children_left]
      by_cases hm : m = p
      · subst hm
        simp [upd]
        omega
      · simp [upd, hm]
        omega
    have h2 := ih _ m hstep h
    rw [updateParent_to_build] at h2
    by_cases hc : g.must_make p = true ∧ s.children_left p - 1 = 0
    · rw [if_pos hc, mem_Array_Push] at h2
      rcases h2 with h2 | rfl
      · exact h2
      · omega
    · rw [if_neg hc] at h2
      exact h2

theorem updateParents_errors_mono (g : Graph) (cgn : Node) (ps : List Node) :
    ∀ (s : MState) (e : Node × Node), e ∈ s.errors →
      e ∈ (updateParents g cgn ps s).errors := by
  induction ps with
  | nil => intro s e h; exact h
  | cons p rest ih =>
    intro s e h
    apply ih
    rw [updateParent_errors]
    split
    · simp [h]
    · exact h

theorem updateParents_error_mem (g : Graph) (cgn : Node) (ps : List Node) :
    ∀ (s : MState) (m : Node), m ∈ ps → g.must_make m = true →
      s.children_left m - 1 < 0 →
      (cgn, m) ∈ (updateParents g cgn ps s).errors := by
  induction ps with
  | nil => intro s m h; simp at h
  | cons p rest ih =>
    intro s m hmem hmm hneg
    unfold updateParents
    by_cases hm : m = p
    · subst hm
      apply updateParents_errors_mono
      rw [updateParent_errors, if_pos ⟨hmm, hneg⟩]
      simp
    · rcases List.mem_cons.mp hmem with h | h
      · exact absurd h hm
      · apply ih _ m h hmm
        rw [updateParent_children_left]
        simp [upd, hm]
        omega

theorem Make_Update_time_status (o : Oracle) (cgn : Node) (s : MState) :
    (Make_Update_time o cgn s).status = s.status := by
  unfold Make_Update_time
  split_ifs <;> rfl

theorem Make_Update_time_children_left (o : Oracle) (cgn : Node) (s : MState) :
    (Make_Update_time o cgn s).children_left = s.children_left := by
  unfold Make_Update_time
  split_ifs <;> rfl

theorem Make_Update_time_child_rebuilt (o : Oracle) (cgn : Node) (s : MState) :
    (Make_Update_time o cgn s).child_rebuilt = s.child_rebuilt := by
  unfold Make_Update_time
  split_ifs <;> rfl

theorem Make_Update_time_cmtime (o : Oracle) (cgn : Node) (s : MState) :
    (Make_Update_time o cgn s).cmtime = s.cmtime := by
  unfold Make_Update_time
  split_ifs <;> rfl

theorem Make_Update_time_watched (o : Oracle) (cgn : Node) (s : MState) :
    (Make_Update_time o cgn s).watched = s.watched := by
  unfold Make_Update_time
  split_ifs <;> rfl

theorem Make_Update_time_heldBack (o : Oracle) (cgn : Node) (s : MState) :
    (Make_Update_time o cgn s).heldBack = s.heldBack := by
  unfold Make_Update_time
  split_ifs <;> rfl

theorem Make_Update_time_to_build (o : Oracle) (cgn : Node) (s : MState) :
    (Make_Update_time o cgn s).to_build = s.to_build := by
  unfold Make_Update_time
  split_ifs <;> rfl

theorem Make_Update_time_errors (o : Oracle) (cgn : Node) (s : MState) :
    (Make_Update_time o cgn s).errors = s.errors := by
  unfold Make_Update_time
  split_ifs <;> rfl

theorem Make_Update_time_mtime (o : Oracle) (cgn : Node) (s : MState) (m : Node) :
    (Make_Update_time o cgn s).mtime m =
      if m = cgn ∧ s.status cgn ≠ BuiltStatus.UPTODATE ∧
          (o.noExecute || o.outOfDate (o.dirMTime cgn)) = true
      then o.now else s.mtime m := by
  unfold Make_Update_time
  split_ifs with h1 h2 <;> simp_all [upd]

theorem Make_Update_watched (g : Graph) (o : Oracle) (cgn : Node) (s : MState) :
    (Make_Update g o cgn s).watched = s.watched := by
  unfold Make_Update requeue_successors
  rw [rsAux_watched, updateParents_watched, requeue_watched, Make_Update_time_watched]

theorem Make_Update_heldBack (g : Graph) (o : Oracle) (cgn : Node) (s : MState) :
    (Make_Update g o cgn s).heldBack =
      s.heldBack.filter (fun x => !decide (s.watched x = some cgn)) := by
  unfold Make_Update requeue_successors
  rw [rsAux_heldBack, updateParents_heldBack, requeue_heldBack,
    Make_Update_time_heldBack, Make_Update_time_watched]

theorem Make_Update_status (g : Graph) (o : Oracle) (cgn : Node) (s : MState)
    (m : Node) : (Make_Update g o cgn s).status m =
      if m ∈ s.heldBack ∧ s.watched m = some cgn then BuiltStatus.UNKNOWN
      else s.status m := by
  unfold Make_Update requeue_successors
  rw [rsAux_status, updateParents_status, requeue_status,
    Make_Update_time_heldBack, Make_Update_time_watched, Make_Update_time_status]

theorem Make_Update_children_left (g : Graph) (o : Oracle) (cgn : Node)
    (s : MState) (m : Node) : (Make_Update g o cgn s).children_left m =
      s.children_left m - ((g.parents cgn).count m : Int) := by
  unfold Make_Update requeue_successors
  rw [rsAux_children_left, updateParents_children_left, requeue_children_left,
    Make_Update_time_children_left]

theorem Make_Update_mtime (g : Graph) (o : Oracle) (cgn : Node) (s : MState)
    (m : Node) : (Make_Update g o cgn s).mtime m =
      if m = cgn ∧ s.status cgn ≠ BuiltStatus.UPTODATE ∧
          (o.noExecute || o.outOfDate (o.dirMTime cgn)) = true
      then o.now else s.mtime m := by
  unfold Make_Update requeue_successors
  rw [rsAux_mtime, updateParents_mtime, requeue_mtime, Make_Update_time_mtime]

theorem Make_Update_errors_eq (g : Graph) (o : Oracle) (cgn : Node) (s : MState) :
    (Make_Update g o cgn s).errors =
      (updateParents g cgn (g.parents cgn) (requeue cgn (Make_Update_time o cgn s))).errors := by
  unfold Make_Update requeue_successors
  rw [rsAux_errors]

theorem count_swap (l : List Node) (i j : Nat) (x y b : Node)
    (hi : i < l.length) (hj : j < l.length) (hx : l[i] = x) (hy : l[j] = y) :
    ((l.set i y).set j x).count b = l.count b := by
  have hj' : j < (l.set i y).length := by simpa using hj
  rw [List.count_set x b _ j hj', List.count_set y b l i hi]
  have hset : GetElem.getElem (l.set i y) j hj' = y := by
    rw [List.getElem_set]
    split <;> simp_all
  rw [hset, hx]
  by_cases hxb : x = b
  · have hmem : b ∈ l := by rw [← hxb, ← hx]; exact List.getElem_mem hi
    have hpos : 0 < l.count b := List.count_pos_iff.mpr hmem
    by_cases hyb : y = b <;> simp [hxb, hyb] <;> omega
  · by_cases hyb : y = b <;> simp [hxb, hyb]

theorem swapIdx_perm (l : List Node) (i j : Nat) : (swapIdx l i j).Perm l := by
  unfold swapIdx
  split
  case _ x y hx hy =>
    rw [List.get?_eq_some] at hx hy
    obtain ⟨hi, hx⟩ := hx
    obtain ⟨hj, hy⟩ := hy
    rw [List.perm_iff_count]
    intro b
    exact count_swap l i j x y b hi hj (by simpa [List.get_eq_getElem] using hx)
      (by simpa [List.get_eq_getElem] using hy)
  case _ => exact List.Perm.refl l

theorem randomizeAux_perm (d : Nat → Nat) (i : Nat) :
    ∀ l : List Node, (randomizeAux d i l).Perm l := by
  induction i with
  | zero => intro l; exact List.Perm.refl l
  | succ n ih =>
    intro l
    unfold randomizeAux
    split
    · exact ih l
    · exact (ih (swapIdx l n (d (n + 1) % (n + 1)))).trans (swapIdx_perm l n _)

theorem randomize_garray_perm (d : Nat → Nat) (l : List Node) :
    (randomize_garray d l).Perm l :=
  randomizeAux_perm d l.length l

theorem hasPredAux_iff (g : Graph) (s : MState) (l : List Node) :
    hasPredAux g s l = true ↔
      ∃ p ∈ l, g.must_make p = true ∧ s.status p = BuiltStatus.UNKNOWN := by
  induction l with
  | nil => simp [hasPredAux]
  | cons p rest ih =>
    unfold hasPredAux
    by_cases hp : g.must_make p ∧ s.status p = BuiltStatus.UNKNOWN
    · rw [if_pos hp]
      simp only [List.mem_cons, true_iff]
      exact ⟨p, Or.inl rfl, hp.1, hp.2⟩
    · rw [if_neg hp, ih]
      constructor
      · rintro ⟨q, hq, hq2⟩
        exact ⟨q, List.mem_cons_of_mem p hq, hq2⟩
      · rintro ⟨q, hq, hq2⟩
        rcases List.mem_cons.mp hq with rfl | hq
        · exact absurd ⟨hq2.1, hq2.2⟩ hp
        · exact ⟨q, hq, hq2⟩

/-- C6: for every node `cgn` passed to `Make_Update`, `cgn`'s modification time
is set to the current wall-clock time if and only if `cgn.built_status` is not
`UPTODATE` and (dry-run mode is enabled or the post-build probe still reports
`cgn` out of date); in all other cases `cgn`'s modification time is left
unchanged. -/
theorem C6_timestamp_finalization (g : Graph) (o : Oracle) (cgn : Node)
    (s : MState) : (Make_Update g o cgn s).mtime cgn =
      if s.status cgn ≠ BuiltStatus.UPTODATE ∧
          (o.noExecute = true ∨ o.outOfDate (o.dirMTime cgn) = true)
      then o.now else s.mtime cgn := by
  rw [Make_Update_mtime]
  simp [Bool.or_eq_true]

/-- C9: `has_predecessor_left_to_build gn` returns true iff some predecessor
`pgn` of `gn` has `must_make` set and `built_status == UNKNOWN`; in particular
it returns false when the predecessor list is empty (the function is a pure
read of the graph and state, modelled as such). -/
theorem C9_has_predecessor_left_to_build (g : Graph) (s : MState) (gn : Node) :
    (has_predecessor_left_to_build g s gn = true ↔
      ∃ p ∈ g.predecessors gn, g.must_make p = true ∧
        s.status p = BuiltStatus.UNKNOWN)
    ∧ (g.predecessors gn = [] → has_predecessor_left_to_build g s gn = false) := by
  constructor
  · unfold has_predecessor_left_to_build
    by_cases he : (g.predecessors gn).isEmpty
    · rw [if_pos he]
      rw [List.isEmpty_iff] at he
      simp [he]
    · rw [if_neg he]
      exact hasPredAux_iff g s (g.predecessors gn)
  · intro he
    unfold has_predecessor_left_to_build
    rw [if_pos (by simp [he])]

/-- C10: `randomize_garray` produces a permutation of its input for every draw
sequence: same multiset of elements, same length and same per-element count,
with nothing duplicated or dropped. -/
theorem C10_randomize_garray_perm (d : Nat → Nat) (l : List Node) :
    (randomize_garray d l).Perm l ∧ (randomize_garray d l).length = l.length ∧
      ∀ x : Node, (randomize_garray d l).count x = l.count x := by
  have h := randomize_garray_perm d l
  exact ⟨h, h.length_eq, fun x => h.count_eq x⟩

/-- Example graph for concrete instances: node 0 has parent 1, no other
edges, and no node is marked must-make. -/
def exGraph : Graph where
  parents := fun n => if n = 0 then [1] else []
  successors := fun _ => []
  predecessors := fun _ => []
  must_make := fun _ => false
  opUse := fun _ => false
  opExec := fun _ => false

/-- Example graph for concrete instances: node 0 has parent 1 and node 1 is
marked must-make. -/
def exGraph2 : Graph where
  parents := fun n => if n = 0 then [1] else []
  successors := fun _ => []
  predecessors := fun _ => []
  must_make := fun n => n == 1
  opUse := fun _ => false
  opExec := fun _ => false

/-- Example oracle for concrete instances: dry-run enabled, nothing reported
out of date, wall clock at 42. -/
def exOracle : Oracle where
  noExecute := true
  dirMTime := fun _ => 0
  outOfDate := fun _ => false
  now := 42

/-- Example state: every node rebuilt with five children left. -/
def sC1 : MState where
  status := fun _ => BuiltStatus.REBUILT
  children_left := fun _ => 5
  child_rebuilt := fun _ => false
  mtime := fun _ => 0
  cmtime := fun _ => 0
  watched := fun _ => none
  heldBack := []
  to_build := []
  errors := []

/-- Example state: every node rebuilt with zero children left. -/
def sC2 : MState where
  status := fun _ => BuiltStatus.REBUILT
  children_left := fun _ => 0
  child_rebuilt := fun _ => false
  mtime := fun _ => 0
  cmtime := fun _ => 0
  watched := fun _ => none
  heldBack := []
  to_build := []
  errors := []

/-- Example state: every node errored with zero children left. -/
def sC7 : MState where
  status := fun _ => BuiltStatus.ERROR
  children_left := fun _ => 0
  child_rebuilt := fun _ => false
  mtime := fun _ => 0
  cmtime := fun _ => 0
  watched := fun _ => none
  heldBack := []
  to_build := []
  errors := []

/-- C1 fails on the code: node 1 is a parent of the completed node 0 with
`must_make == false`, yet `Make_Update` still decrements its `children_left`
(the decrement at make.c line 261 happens before the `must_make` test). -/
theorem C1_counterexample :
    exGraph.must_make 1 = false ∧
    (Make_Update exGraph exOracle 0 sC1).children_left 1 ≠ sC1.children_left 1 := by
  decide

/-- C1 (amended): for a completed child `cgn` and a parent `pgn` with
`pgn.must_make == false` (and not held back watching `cgn`), `Make_Update`
still decrements `pgn.children_left` once per occurrence of `pgn` in
`cgn.parents`, but leaves `pgn`'s other scheduling fields — `built_status`,
`child_rebuilt`, the timestamp-comparison state — unchanged and does not push
`pgn` onto the `to_build` queue. -/
theorem C1_nonmustmake_frame (g : Graph) (o : Oracle) (cgn pgn : Node)
    (s : MState) (hmm : g.must_make pgn = false)
    (hw : s.watched pgn ≠ some cgn) :
    (Make_Update g o cgn s).children_left pgn
        = s.children_left pgn - ((g.parents cgn).count pgn : Int)
    ∧ (Make_Update g o cgn s).status pgn = s.status pgn
    ∧ (Make_Update g o cgn s).child_rebuilt pgn = s.child_rebuilt pgn
    ∧ (Make_Update g o cgn s).cmtime pgn = s.cmtime pgn
    ∧ (pgn ∈ (Make_Update g o cgn s).to_build → pgn ∈ s.to_build) := by
  refine ⟨Make_Update_children_left g o cgn s pgn, ?_, ?_, ?_, ?_⟩
  · rw [Make_Update_status]
    simp [hw]
  · unfold Make_Update requeue_successors
    rw [rsAux_child_rebuilt, updateParents_child_rebuilt, requeue_status,
      requeue_child_rebuilt, Make_Update_time_child_rebuilt,
      Make_Update_time_status]
    simp [hmm]
  · unfold Make_Update requeue_successors
    rw [rsAux_cmtime, updateParents_cmtime, requeue_cmtime,
      Make_Update_time_cmtime]
    simp [hmm]
  · intro h
    unfold Make_Update requeue_successors at h
    rw [rsAux_to_build_mem] at h
    rcases h with h | h
    · have h2 := updateParents_to_build_new _ _ _ _ _ h
      rcases h2 with h2 | h2
      · rw [requeue_to_build_mem, Make_Update_time_to_build,
          Make_Update_time_heldBack, Make_Update_time_watched] at h2
        rcases h2 with h2 | h2
        · exact h2
        · exact absurd h2.2 hw
      · rw [hmm] at h2
        exact absurd h2.2 (by simp)
    · rw [updateParents_status, requeue_status] at h
      have := h.2.1
      rw [hmm] at this
      exact absurd this (by simp)

/-- C2 fails on the code as stated: node 1 is a parent of the completed node 0
whose `children_left` becomes negative after the decrement, but because
`must_make` is false no error report naming the pair is emitted. -/
theorem C2_counterexample :
    (Make_Update exGraph exOracle 0 sC2).children_left 1 < 0 ∧
    (Make_Update exGraph exOracle 0 sC2).errors = [] := by
  decide

/-- C2 (amended): during `Make_Update` on child `cgn`, for every must-make
parent `pgn` whose `children_left` becomes negative after the decrement (and
that is not held back watching `cgn`), an error report naming both `cgn` and
`pgn` is emitted, `pgn` is not pushed onto the `to_build` queue, and
processing continues with the remaining parents (every parent still receives
its decrement). -/
theorem C2_cycle_error (g : Graph) (o : Oracle) (cgn pgn : Node) (s : MState)
    (hmem : pgn ∈ g.parents cgn) (hmm : g.must_make pgn = true)
    (hneg : s.children_left pgn - 1 < 0) (hw : s.watched pgn ≠ some cgn) :
    (cgn, pgn) ∈ (Make_Update g o cgn s).errors
    ∧ (Make_Update g o cgn s).children_left pgn < 0
    ∧ (pgn ∈ (Make_Update g o cgn s).to_build → pgn ∈ s.to_build)
    ∧ (∀ q : Node, (Make_Update g o cgn s).children_left q =
        s.children_left q - ((g.parents cgn).count q : Int)) := by
  have hcount : 0 < (g.parents cgn).count pgn := List.count_pos_iff.mpr hmem
  refine ⟨?_, ?_, ?_, fun q => Make_Update_children_left g o cgn s q⟩
  · rw [Make_Update_errors_eq]
    apply updateParents_error_mem g cgn (g.parents cgn) _ pgn hmem hmm
    rw [requeue_children_left, Make_Update_time_children_left]
    exact hneg
  · rw [Make_Update_children_left]
    omega
  · intro h
    unfold Make_Update requeue_successors at h
    rw [rsAux_to_build_mem] at h
    rcases h with h | h
    · have h2 := updateParents_not_pushed g cgn (g.parents cgn) _ pgn
        (by rw [requeue_children_left, Make_Update_time_children_left]; exact hneg) h
      rw [requeue_to_build_mem, Make_Update_time_to_build,
        Make_Update_time_heldBack, Make_Update_time_watched] at h2
      rcases h2 with h2 | h2
      · exact h2
      · exact absurd h2.2 hw
    · rw [updateParents_children_left, requeue_children_left,
        Make_Update_time_children_left] at h
      have h3 := h.2.2.1
      omega

/-- C7 fails on the code: a node whose `built_status` ended as `ERROR` but
whose `children_left` reached zero produces no status line at all from
`MakePrintStatus` — it is silently dropped rather than reported as not remade.
-/
theorem C7_counterexample :
    sC7.status 0 = BuiltStatus.ERROR ∧ MakePrintStatus sC7 0 = none := by
  decide

/-- C7 (amended): at end-of-run printing, a node is reported "not remade
because of errors" iff its `built_status` is not `UPTODATE` and its
`children_left` is nonzero; a node is reported "is up to date" iff its
`built_status` is `UPTODATE`.  A node with `built_status == ERROR` whose
`children_left` reached zero produces no line from `MakePrintStatus`. -/
theorem C7_print_status (s : MState) (gn : Node) :
    (MakePrintStatus s gn = some (StatusLine.upToDate gn) ↔
      s.status gn = BuiltStatus.UPTODATE)
    ∧ (MakePrintStatus s gn = some (StatusLine.notRemade gn) ↔
      s.status gn ≠ BuiltStatus.UPTODATE ∧ s.children_left gn ≠ 0) := by
  unfold MakePrintStatus
  split_ifs <;> simp_all

/-- Example state for the hold-back release: nodes 2 and 3 held back, node 2
watching node 0, node 3 watching node 9. -/
def sC3 : MState where
  status := fun _ => BuiltStatus.ERROR
  children_left := fun _ => 1
  child_rebuilt := fun _ => false
  mtime := fun _ => 0
  cmtime := fun _ => 0
  watched := fun n => if n = 2 then some 0 else if n = 3 then some 9 else none
  heldBack := [2, 3]
  to_build := []
  errors := []

/-- C3: `requeue gn` removes from `heldBack` exactly the entries watching
`gn`, resets each removed entry's `built_status` to `UNKNOWN` and appends it
to `to_build` in order, keeps every non-matching entry in relative order
(stable partition, expressed by `List.filter`), and leaves every other node's
status alone; `Make_Update` performs this release on every completion,
regardless of the finished node's own status. -/
theorem C3_requeue_release (g : Graph) (o : Oracle) (gn : Node) (s : MState)
    (hnd : s.heldBack.Nodup)
    (hdisj : ∀ x ∈ s.heldBack, s.watched x = some gn → x ∉ s.to_build) :
    (requeue gn s).heldBack =
        s.heldBack.filter (fun x => !decide (s.watched x = some gn))
    ∧ (requeue gn s).to_build =
        s.to_build ++ s.heldBack.filter (fun x => decide (s.watched x = some gn))
    ∧ (∀ x ∈ s.heldBack, s.watched x = some gn →
        (requeue gn s).status x = BuiltStatus.UNKNOWN)
    ∧ (∀ x : Node, ¬(x ∈ s.heldBack ∧ s.watched x = some gn) →
        (requeue gn s).status x = s.status x)
    ∧ (Make_Update g o gn s).heldBack =
        s.heldBack.filter (fun x => !decide (s.watched x = some gn)) := by
  refine ⟨requeue_heldBack gn s, requeue_to_build_eq gn s hnd hdisj, ?_, ?_,
    Make_Update_heldBack g o gn s⟩
  · intro x hx hwx
    rw [requeue_status]
    simp [hx, hwx]
  · intro x hx
    rw [requeue_status]
    simp [hx]

/-- Witness for C3 at a concrete state: node 2 (watching the finished node 0)
is released with its status reset, node 3 is kept. -/
theorem C3_witness :
    (requeue 0 sC3).heldBack = [3]
    ∧ (requeue 0 sC3).to_build = [2]
    ∧ (requeue 0 sC3).status 2 = BuiltStatus.UNKNOWN
    ∧ (Make_Update exGraph exOracle 0 sC3).heldBack = [3] := by
  have h := C3_requeue_release exGraph exOracle 0 sC3 (by decide) (by decide)
  refine ⟨?_, ?_, h.2.2.1 2 (by decide) (by decide), ?_⟩
  · rw [h.1]; decide
  · rw [h.2.1]; decide
  · rw [h.2.2.2.2]; decide

/-- Example state for the dedup check: node 1 has one child left, so
completing node 0 pushes node 1 exactly once. -/
def sC4 : MState where
  status := fun _ => BuiltStatus.REBUILT
  children_left := fun _ => 1
  child_rebuilt := fun _ => false
  mtime := fun _ => 0
  cmtime := fun _ => 0
  watched := fun _ => none
  heldBack := []
  to_build := []
  errors := []

/-- C4: every push performed by `Make_Update` — the hold-back release push,
the parent-propagation push and the successor re-examination push — goes
through the dedupping array push, so an initially duplicate-free `to_build`
queue stays duplicate-free: no node is ever inserted twice. -/
theorem C4_to_build_nodup (g : Graph) (o : Oracle) (cgn : Node) (s : MState)
    (h : s.to_build.Nodup) :
    (Make_Update g o cgn s).to_build.Nodup
    ∧ ∀ n : Node, (Make_Update g o cgn s).to_build.count n ≤ 1 := by
  have h1 : (Make_Update g o cgn s).to_build.Nodup := by
    unfold Make_Update requeue_successors
    apply rsAux_to_build_nodup
    apply updateParents_to_build_nodup
    apply requeue_to_build_nodup
    rw [Make_Update_time_to_build]
    exact h
  exact ⟨h1, fun n => List.nodup_iff_count_le_one.mp h1 n⟩

/-- Witness for C4 at a concrete state: after completing node 0, the queue
holds node 1 once. -/
theorem C4_witness :
    (Make_Update exGraph2 exOracle 0 sC4).to_build.Nodup
    ∧ (Make_Update exGraph2 exOracle 0 sC4).to_build.count 1 ≤ 1 := by
  have h := C4_to_build_nodup exGraph2 exOracle 0 sC4 (by decide)
  exact ⟨h.1, h.2 1⟩

/-- C5: in every reachable scheduler state, every node currently in the
hold-back set has its `watched` field set and `built_status == UNKNOWN`. -/
theorem C5_heldBack_invariant (g : Graph) (o : Oracle) (s : MState)
    (h : Reachable g o s) :
    ∀ n ∈ s.heldBack, s.watched n ≠ none ∧ s.status n = BuiltStatus.UNKNOWN := by
  induction h with
  | init s hs =>
    intro n hn
    rw [hs] at hn
    simp at hn
  | step s t hr hstep ih =>
    cases hstep with
    | defer n w s hstat hmem =>
      intro m hm
      simp only [List.mem_append, List.mem_singleton] at hm
      rcases hm with hm | rfl
      · have h2 := ih m hm
        have hne : m ≠ n := fun he => hmem (he ▸ hm)
        simpa [upd, hne] using h2
      · simp [upd, hstat]
    | finish n st s hmem =>
      intro m hm
      have h2 := ih m hm
      have hne : m ≠ n := fun he => hmem (he ▸ hm)
      simpa [upd, hne] using h2
    | update cgn s =>
      intro m hm
      rw [Make_Update_heldBack] at hm
      rw [List.mem_filter] at hm
      have hw : ¬(s.watched m = some cgn) := by
        have := hm.2
        simpa using this
      have h2 := ih m hm.1
      rw [Make_Update_watched, Make_Update_status]
      simpa [hw] using h2

/-- Example run-start state: everything unexamined, nothing queued or held. -/
def sInit : MState where
  status := fun _ => BuiltStatus.UNKNOWN
  children_left := fun _ => 1
  child_rebuilt := fun _ => false
  mtime := fun _ => 0
  cmtime := fun _ => 0
  watched := fun _ => none
  heldBack := []
  to_build := []
  errors := []

/-- Example state reached by deferring node 0 behind node 1 from `sInit`. -/
def sC5 : MState :=
  { sInit with watched := upd sInit.watched 0 (some 1),
               heldBack := sInit.heldBack ++ [0] }

/-- Witness for C5: after deferring node 0 behind node 1 from an initial
state, node 0 sits in the hold-back set with its watch set and status
`UNKNOWN`. -/
theorem C5_witness :
    sC5.watched 0 ≠ none ∧ sC5.status 0 = BuiltStatus.UNKNOWN := by
  have hr : Reachable exGraph exOracle sC5 :=
    Reachable.step sInit sC5 (Reachable.init sInit rfl)
      (Step.defer 0 1 sInit (by decide) (by decide))
  exact C5_heldBack_invariant exGraph exOracle sC5 hr 0 (by decide)

/-- C8: during parent propagation, for a must-make parent `pgn` of the
completed child `cgn`: when `cgn` is neither `OP_USE` nor `OP_EXEC`,
`pgn.child_rebuilt` is set to true exactly when `cgn.built_status ==
REBUILT`, and `cgn`'s (finalized) modification time is folded into `pgn`'s
timestamp-comparison state via `Make_TimeStamp`; when `cgn` is `OP_USE` or
`OP_EXEC`, neither field of `pgn` is modified. -/
theorem C8_rebuild_propagation (g : Graph) (o : Oracle) (cgn pgn : Node)
    (s : MState) (hmm : g.must_make pgn = true) (hmem : pgn ∈ g.parents cgn)
    (hw : s.watched cgn ≠ some cgn) :
    ((g.opExec cgn || g.opUse cgn) = false →
      (Make_Update g o cgn s).child_rebuilt pgn =
        (if s.status cgn = BuiltStatus.REBUILT then true else s.child_rebuilt pgn)
      ∧ (Make_Update g o cgn s).cmtime pgn =
        Make_TimeStamp (s.cmtime pgn) ((Make_Update g o cgn s).mtime cgn))
    ∧ ((g.opExec cgn || g.opUse cgn) = true →
      (Make_Update g o cgn s).child_rebuilt pgn = s.child_rebuilt pgn
      ∧ (Make_Update g o cgn s).cmtime pgn = s.cmtime pgn) := by
  constructor
  · intro hflag
    constructor
    · unfold Make_Update requeue_successors
      rw [rsAux_child_rebuilt, updateParents_child_rebuilt, requeue_status,
        requeue_child_rebuilt, Make_Update_time_status,
        Make_Update_time_child_rebuilt, Make_Update_time_heldBack,
        Make_Update_time_watched]
      simp [hmem, hmm, hflag, hw]
    · have hm : (Make_Update g o cgn s).mtime cgn =
          (Make_Update_time o cgn s).mtime cgn := by
        unfold Make_Update requeue_successors
        rw [rsAux_mtime, updateParents_mtime, requeue_mtime]
      rw [hm]
      unfold Make_Update requeue_successors
      rw [rsAux_cmtime, updateParents_cmtime, requeue_cmtime, requeue_mtime,
        Make_Update_time_cmtime]
      simp [hmem, hmm, hflag]
  · intro hflag
    constructor
    · unfold Make_Update requeue_successors
      rw [rsAux_child_rebuilt, updateParents_child_rebuilt, requeue_child_rebuilt,
        Make_Update_time_child_rebuilt]
      simp [hflag]
    · unfold Make_Update requeue_successors
      rw [rsAux_cmtime, updateParents_cmtime, requeue_cmtime,
        Make_Update_time_cmtime]
      simp [hflag]

/-- Witness for C8 at a concrete state: node 0 (rebuilt) propagates to its
must-make parent 1, setting `child_rebuilt` and folding the finalized
modification time. -/
theorem C8_witness :
    (Make_Update exGraph2 exOracle 0 sC1).child_rebuilt 1 = true
    ∧ (Make_Update exGraph2 exOracle 0 sC1).cmtime 1 =
        Make_TimeStamp (sC1.cmtime 1) ((Make_Update exGraph2 exOracle 0 sC1).mtime 0) := by
  have h := (C8_rebuild_propagation exGraph2 exOracle 0 1 sC1 (by decide)
    (by decide) (by decide)).1 (by decide)
  refine ⟨?_, h.2⟩
  rw [h.1]
  decide

/-- Witness for C1 (amended) at a concrete state: the non-must-make parent 1
is decremented from 5 to 4 while its other fields are untouched. -/
theorem C1_witness :
    (Make_Update exGraph exOracle 0 sC1).children_left 1 = 4
    ∧ (Make_Update exGraph exOracle 0 sC1).status 1 = sC1.status 1
    ∧ (Make_Update exGraph exOracle 0 sC1).child_rebuilt 1 = sC1.child_rebuilt 1
    ∧ (Make_Update exGraph exOracle 0 sC1).cmtime 1 = sC1.cmtime 1 := by
  have h := C1_nonmustmake_frame exGraph exOracle 0 1 sC1 (by decide) (by decide)
  refine ⟨?_, h.2.1, h.2.2.1, h.2.2.2.1⟩
  rw [h.1]
  decide

/-- Witness for C2 (amended) at a concrete state: must-make parent 1 of the
completed node 0 goes negative and the cycle error naming (0, 1) is
recorded. -/
theorem C2_witness :
    (0, 1) ∈ (Make_Update exGraph2 exOracle 0 sC2).errors
    ∧ (Make_Update exGraph2 exOracle 0 sC2).children_left 1 < 0 := by
  have h := C2_cycle_error exGraph2 exOracle 0 1 sC2 (by decide) (by decide)
    (by decide) (by decide)
  exact ⟨h.1, h.2.1⟩

/-- Witness for C6 at a concrete state: node 0 is not up to date and dry-run
is on, so its modification time becomes the current clock value 42. -/
theorem C6_witness : (Make_Update exGraph exOracle 0 sC1).mtime 0 = 42 := by
  have h := C6_timestamp_finalization exGraph exOracle 0 sC1
  rw [h]
  decide

/-- Witness for C7 (amended) at a concrete state: node 0 with a rebuilt
status and five children left is reported as not remade. -/
theorem C7_witness : MakePrintStatus sC1 0 = some (StatusLine.notRemade 0) :=
  (C7_print_status sC1 0).2.mpr (by decide)

/-- Witness for C9 at a concrete state: node 0 has no predecessors, so the
check returns false. -/
theorem C9_witness : has_predecessor_left_to_build exGraph sInit 0 = false :=
  (C9_has_predecessor_left_to_build exGraph sInit 0).2 (by decide)

/-- Witness for C10 at a concrete list and draw sequence. -/
theorem C10_witness :
    (randomize_garray (fun _ => 0) [5, 6, 7]).Perm [5, 6, 7]
    ∧ (randomize_garray (fun _ => 0) [5, 6, 7]).length = 3
    ∧ (randomize_garray (fun _ => 0) [5, 6, 7]).count 5 = 1 := by
  have h := C10_randomize_garray_perm (fun _ => 0) [5, 6, 7]
  refine ⟨h.1, ?_, ?_⟩
  · rw [h.2.1]
    decide
  · rw [h.2.2 5]
    decide

end Make
